import Mathlib

/-!
Shallow embedding of the goldenfile test-fixture manager
(src/mint.rs and src/differs.rs) and verification of the frozen claims.

Filesystem paths are modelled as an absolute-flag plus a list of
components; the filesystem itself is an association list from paths to
byte contents. Rust `panic!`/`unwrap` failures are modelled by `Option`
(`none` = panic); recoverable `io::Result` errors by `Except`.
-/

namespace Goldenfile

/-- A filesystem path (Rust `PathBuf`): an absolute flag plus components. -/
structure PathBuf where
  absolute : Bool
  components : List String
deriving DecidableEq

/-- Rust `Path::is_relative`. -/
def PathBuf.is_relative (p : PathBuf) : Bool := !p.absolute

/-- Rust `Path::join`: joining an absolute path replaces the base. -/
def joinPath (base p : PathBuf) : PathBuf :=
  if p.absolute then p else ⟨base.absolute, base.components ++ p.components⟩

/-- File contents as a byte list. -/
abbrev FileContent := List Nat

/-- The filesystem: an association list from paths to contents. -/
abbrev FS := List (PathBuf × FileContent)

/-- Content of the file at `p`, if it exists. -/
def lookupFile : FS → PathBuf → Option FileContent
  | [], _ => none
  | e :: fs, p => if e.1 = p then some e.2 else lookupFile fs p

/-- Delete the file at `p` (no-op when absent). -/
def removeFile : FS → PathBuf → FS
  | [], _ => []
  | e :: fs, p => if e.1 = p then removeFile fs p else e :: removeFile fs p

/-- Create or overwrite the file at `p` with content `c`. -/
def setFile (fs : FS) (p : PathBuf) (c : FileContent) : FS :=
  (p, c) :: removeFile fs p

/-- Rust `Path::exists`. -/
def fileExists (fs : FS) (p : PathBuf) : Bool := (lookupFile fs p).isSome

theorem lookupFile_removeFile (fs : FS) (p q : PathBuf) :
    lookupFile (removeFile fs p) q = if q = p then none else lookupFile fs q := by
  induction fs with
  | nil => simp [removeFile, lookupFile]
  | cons e fs ih =>
      by_cases hep : e.1 = p
      · by_cases hqp : q = p
        · subst hqp
          simp [removeFile, lookupFile, hep, ih]
        · have hpq : ¬ p = q := fun h => hqp h.symm
          simp [removeFile, lookupFile, hep, hqp, hpq, ih]
      · by_cases heq : e.1 = q
        · have hqp : ¬ q = p := fun h => hep (heq.trans h)
          simp [removeFile, lookupFile, hep, heq, hqp]
        · simp [removeFile, lookupFile, hep, heq, ih]

theorem lookupFile_setFile (fs : FS) (p q : PathBuf) (c : FileContent) :
    lookupFile (setFile fs p c) q = if q = p then some c else lookupFile fs q := by
  by_cases hqp : q = p
  · simp [setFile, lookupFile, hqp]
  · have hpq : ¬ p = q := fun h => hqp h.symm
    simp [setFile, lookupFile, lookupFile_removeFile, hqp, hpq]

theorem removeFile_of_not_exists (fs : FS) (p : PathBuf)
    (h : lookupFile fs p = none) : removeFile fs p = fs := by
  induction fs with
  | nil => simp [removeFile]
  | cons e fs ih =>
      by_cases hep : e.1 = p
      · simp [lookupFile, hep] at h
      · simp [lookupFile, hep] at h
        simp [removeFile, hep, ih h]

/-- The location of the goldenfile (mint.rs `GoldenfileLocation`). -/
inductive GoldenfileLocation
  | Original
  | Temporary
deriving DecidableEq

/-- The differ stored per entry (differs.rs `Differ`). The two built-in
strategies are textual and exact-binary comparison; both succeed exactly
when the two file contents are equal, so the registry records which
strategy was chosen. -/
inductive Differ
  | text
  | binary
deriving DecidableEq

/-- One registry entry: the tuple pushed onto `Mint.files` in mint.rs. -/
structure GoldenfileEntry where
  path : PathBuf
  differ : Differ
  relation : GoldenfileLocation
deriving DecidableEq

/-- The lifecycle manager (mint.rs `Mint`). `path` is the golden root,
`tempdir` the staging directory. -/
structure Mint where
  path : PathBuf
  tempdir : PathBuf
  files : List GoldenfileEntry
  create_empty : Bool
deriving DecidableEq

/-- mint.rs `Mint::new_internal`: the fresh staging directory is a
parameter, since `TempDir::new` picks an arbitrary fresh name. -/
def Mint.new_internal (path tempdir : PathBuf) (create_empty : Bool) : Mint :=
  ⟨path, tempdir, [], create_empty⟩

/-- mint.rs `Mint::new`. -/
def Mint.new (path tempdir : PathBuf) : Mint :=
  Mint.new_internal path tempdir true

/-- mint.rs `Mint::new_nonempty`. -/
def Mint.new_nonempty (path tempdir : PathBuf) : Mint :=
  Mint.new_internal path tempdir false

/-- Rust `Path::extension` on a file name: the part after the last dot,
except that a lone leading dot (hidden file) yields no extension. -/
def fileExtension (name : String) : Option String :=
  match name.splitOn "." with
  | [] => none
  | [_] => none
  | "" :: [_] => none
  | parts => parts.getLast?

/-- Rust `Path::extension`: the extension of the final component. -/
def pathExtension (p : PathBuf) : Option String :=
  match p.components.getLast? with
  | none => none
  | some name => fileExtension name

/-- The string dispatch inside mint.rs `get_differ_for_path`; the Rust
`match` on string literals is an equality chain. -/
def differForExtensionName (s : String) : Differ :=
  if s = "bin" then .binary
  else if s = "exe" then .binary
  else if s = "gz" then .binary
  else if s = "tar" then .binary
  else if s = "zip" then .binary
  else .text

/-- mint.rs `get_differ_for_path`. -/
def get_differ_for_path (p : PathBuf) : Differ :=
  match pathExtension p with
  | some s => differForExtensionName s
  | none => .text

/-- Recoverable `std::io` error kinds surfaced by the embedded operations. -/
inductive IOErrorKind
  | invalidInput
  | notFound
deriving DecidableEq

/-- mint.rs `Mint::register_goldenfile_with_differ_and_relation`. The Rust
method mutates `self`; the model returns the result paired with the
updated mint. -/
def Mint.register_goldenfile_with_differ_and_relation (m : Mint) (p : PathBuf)
    (differ : Differ) (relation : GoldenfileLocation) :
    Except IOErrorKind PathBuf × Mint :=
  if !p.is_relative then
    (Except.error .invalidInput, m)
  else
    let abs_path := joinPath m.tempdir p
    (Except.ok abs_path, { m with files := m.files ++ [⟨p, differ, relation⟩] })

/-- mint.rs `Mint::register_goldenfile_with_differ`. -/
def Mint.register_goldenfile_with_differ (m : Mint) (p : PathBuf)
    (differ : Differ) : Except IOErrorKind PathBuf × Mint :=
  m.register_goldenfile_with_differ_and_relation p differ .Original

/-- mint.rs `Mint::register_goldenfile`. -/
def Mint.register_goldenfile (m : Mint) (p : PathBuf) :
    Except IOErrorKind PathBuf × Mint :=
  m.register_goldenfile_with_differ p (get_differ_for_path p)

/-- mint.rs `Mint::new_goldenfile_with_differ`. `createOk` models whether
`File::create` succeeds (directories are not part of the FS model, and
the `create_dir_all` panic path is an environment failure outside the
claims). On success the created file is empty; on failure the just-pushed
registry entry is popped and the error returned. -/
def Mint.new_goldenfile_with_differ (m : Mint) (fs : FS) (p : PathBuf)
    (differ : Differ) (createOk : Bool) :
    Except IOErrorKind PathBuf × Mint × FS :=
  match m.register_goldenfile_with_differ p differ with
  | (Except.error e, m') => (Except.error e, m', fs)
  | (Except.ok abs_path, m') =>
      if createOk then
        (Except.ok abs_path, m', setFile fs abs_path [])
      else
        (Except.error .notFound, { m' with files := m'.files.dropLast }, fs)

/-- mint.rs `Mint::new_goldenfile`. -/
def Mint.new_goldenfile (m : Mint) (fs : FS) (p : PathBuf) (createOk : Bool) :
    Except IOErrorKind PathBuf × Mint × FS :=
  m.new_goldenfile_with_differ fs p (get_differ_for_path p) createOk

/-- mint.rs `Mint::move_goldenfile_with_differ`. `fs::copy` fails (with a
recoverable error propagated by `?`) when the golden-root file is absent;
after a successful copy the source exists, so `fs::remove_file` succeeds. -/
def Mint.move_goldenfile_with_differ (m : Mint) (fs : FS) (p : PathBuf)
    (differ : Differ) : Except IOErrorKind PathBuf × Mint × FS :=
  let gold := joinPath m.path p
  match m.register_goldenfile_with_differ_and_relation p differ .Temporary with
  | (Except.error e, m') => (Except.error e, m', fs)
  | (Except.ok temp, m') =>
      match lookupFile fs gold with
      | none => (Except.error .notFound, m', fs)
      | some c => (Except.ok gold, m', removeFile (setFile fs temp c) gold)

/-- mint.rs `Mint::move_goldenfile`. -/
def Mint.move_goldenfile (m : Mint) (fs : FS) (p : PathBuf) :
    Except IOErrorKind PathBuf × Mint × FS :=
  m.move_goldenfile_with_differ fs p (get_differ_for_path p)

/-- mint.rs `Mint::overwrite_file`. `none` models a panic: the source is
opened with an unguarded `unwrap`, so a missing source file panics. When
the source is empty and `create_empty` is false, the destination is
removed if present and left alone otherwise. -/
def Mint.overwrite_file (fs : FS) (dest source : PathBuf)
    (create_empty : Bool) : Option FS :=
  match lookupFile fs source with
  | none => none
  | some c =>
      if create_empty || !(c.length == 0) then
        some (setFile fs dest c)
      else if fileExists fs dest then
        some (removeFile fs dest)
      else
        some fs

/-- The `(golden, new)` pair computed per entry in both
`check_goldenfiles` and `update_goldenfiles` (mint.rs lines 115-120 and
149-154): `orig` joined under the golden root, `temp` under staging. -/
def goldenNewPaths (m : Mint) (e : GoldenfileEntry) : PathBuf × PathBuf :=
  let orig := joinPath m.path e.path
  let temp := joinPath m.tempdir e.path
  match e.relation with
  | .Original => (orig, temp)
  | .Temporary => (temp, orig)

/-- The loop of mint.rs `Mint::update_goldenfiles`: overwrite `golden`
(destination) with `new` (source) for each entry; a panic (`none`) stops
the loop. -/
def updateFiles (m : Mint) : List GoldenfileEntry → FS → Option FS
  | [], fs => some fs
  | e :: es, fs =>
      match Mint.overwrite_file fs (goldenNewPaths m e).1 (goldenNewPaths m e).2
          m.create_empty with
      | none => none
      | some fs' => updateFiles m es fs'

/-- mint.rs `Mint::update_goldenfiles`. -/
def Mint.update_goldenfiles (m : Mint) (fs : FS) : Option FS :=
  updateFiles m m.files fs

/-- Continuation byte of a UTF-8 sequence: 0x80 to 0xBF. -/
def isUtf8Cont (b : Nat) : Bool := 0x80 ≤ b && b ≤ 0xBF

/-- Well-formedness of a byte sequence as UTF-8, exactly as enforced by
Rust `String` decoding (`read_to_string`, differs.rs 17): ASCII bytes
stand alone; 0xC2-0xDF open two-byte sequences; 0xE0, 0xE1-0xEC, 0xED,
0xEE-0xEF open three-byte sequences with the usual overlong and
surrogate exclusions; 0xF0, 0xF1-0xF3, 0xF4 open four-byte sequences
bounded at U+10FFFF; everything else is invalid. -/
def validUtf8 : List Nat → Bool
  | [] => true
  | b :: rest =>
      if b ≤ 0x7F then validUtf8 rest
      else if 0xC2 ≤ b && b ≤ 0xDF then
        match rest with
        | b1 :: rest1 => isUtf8Cont b1 && validUtf8 rest1
        | [] => false
      else if b = 0xE0 then
        match rest with
        | b1 :: b2 :: rest2 =>
            (0xA0 ≤ b1 && b1 ≤ 0xBF) && (isUtf8Cont b2 && validUtf8 rest2)
        | _ => false
      else if (0xE1 ≤ b && b ≤ 0xEC) || (0xEE ≤ b && b ≤ 0xEF) then
        match rest with
        | b1 :: b2 :: rest2 =>
            isUtf8Cont b1 && (isUtf8Cont b2 && validUtf8 rest2)
        | _ => false
      else if b = 0xED then
        match rest with
        | b1 :: b2 :: rest2 =>
            (0x80 ≤ b1 && b1 ≤ 0x9F) && (isUtf8Cont b2 && validUtf8 rest2)
        | _ => false
      else if b = 0xF0 then
        match rest with
        | b1 :: b2 :: b3 :: rest3 =>
            (0x90 ≤ b1 && b1 ≤ 0xBF)
              && (isUtf8Cont b2 && (isUtf8Cont b3 && validUtf8 rest3))
        | _ => false
      else if 0xF1 ≤ b && b ≤ 0xF3 then
        match rest with
        | b1 :: b2 :: b3 :: rest3 =>
            isUtf8Cont b1
              && (isUtf8Cont b2 && (isUtf8Cont b3 && validUtf8 rest3))
        | _ => false
      else if b = 0xF4 then
        match rest with
        | b1 :: b2 :: b3 :: rest3 =>
            (0x80 ≤ b1 && b1 ≤ 0x8F)
              && (isUtf8Cont b2 && (isUtf8Cont b3 && validUtf8 rest3))
        | _ => false
      else false

/-- Result of one differ invocation: success, a content mismatch
(`assert_diff` with nonzero distance panics), a panic opening a missing
file (`File::open` `expect`), or a panic decoding a file that is not
valid UTF-8 (`read_to_string` `expect`). -/
inductive DifferResult
  | ok
  | mismatch
  | openError (p : PathBuf)
  | readError (p : PathBuf)
deriving DecidableEq

/-- differs.rs `text_diff` via `read_file`: the first path (`golden`) is
opened and fully decoded before the second; a missing file panics at
`File::open` and non-UTF-8 content panics at `read_to_string`; otherwise
`assert_diff` with zero allowed distance signals a mismatch exactly when
the two decoded contents differ. -/
def text_diff (fs : FS) (golden new : PathBuf) : DifferResult :=
  match lookupFile fs golden with
  | none => .openError golden
  | some g =>
      if !validUtf8 g then .readError golden
      else
        match lookupFile fs new with
        | none => .openError new
        | some n =>
            if !validUtf8 n then .readError new
            else if g = n then .ok else .mismatch

/-- Modelled from the spec: `binary_diff` is referenced by mint.rs but
its definition is not among the sources; the spec describes it as
exact-binary comparison reading full file contents, so it succeeds
exactly on equal byte contents (no decoding step) and fails on a
missing file. -/
def binary_diff (fs : FS) (golden new : PathBuf) : DifferResult :=
  match lookupFile fs golden with
  | none => .openError golden
  | some g =>
      match lookupFile fs new with
      | none => .openError new
      | some n => if g = n then .ok else .mismatch

/-- Run the differ recorded in an entry on `(golden, new)`. -/
def runDiffer : Differ → FS → PathBuf → PathBuf → DifferResult
  | .text, fs, golden, new => text_diff fs golden new
  | .binary, fs, golden, new => binary_diff fs golden new

/-- Outcome of the verify pass. `failed` carries the entry path, the
differ failure, and the filesystem after the unwind guard ran
(`none` inside when the reconciliation copy itself panicked). -/
inductive CheckOutcome
  | ok
  | failed (file : PathBuf) (result : DifferResult) (after : Option FS)
deriving DecidableEq

/-- The loop of mint.rs `Mint::check_goldenfiles`: run each differ in
order; on the first failure the `defer_on_unwind` guard fires, printing a
diagnostic and, for `Temporary` entries only, copying `golden` back onto
`new` via `overwrite_file`; the panic then propagates, so later entries
are not visited. -/
def checkFiles (m : Mint) : List GoldenfileEntry → FS → CheckOutcome
  | [], _ => .ok
  | e :: es, fs =>
      match runDiffer e.differ fs (goldenNewPaths m e).1 (goldenNewPaths m e).2 with
      | .ok => checkFiles m es fs
      | r =>
          match e.relation with
          | .Original => .failed e.path r (some fs)
          | .Temporary =>
              .failed e.path r
                (Mint.overwrite_file fs (goldenNewPaths m e).2
                  (goldenNewPaths m e).1 m.create_empty)

/-- mint.rs `Mint::check_goldenfiles`. -/
def Mint.check_goldenfiles (m : Mint) (fs : FS) : CheckOutcome :=
  checkFiles m m.files fs

/-- Rust `env::var`: first binding of the key in the process environment. -/
def envVar (env : List (String × String)) (key : String) : Option String :=
  match env with
  | [] => none
  | e :: rest => if e.1 = key then some e.2 else envVar rest key

/-- What the `Drop` impl decides to run. -/
inductive DropAction
  | skip
  | update
  | check
deriving DecidableEq

/-- mint.rs `impl Drop for Mint`: skip everything while the thread is
panicking; otherwise run the update pass when the legacy
`REGENERATE_GOLDENFILES` or the current `UPDATE_GOLDENFILES` variable is
set to the literal `"1"`, and the verify pass otherwise. -/
def dropAction (panicking : Bool) (env : List (String × String)) : DropAction :=
  if panicking then .skip
  else if envVar env "REGENERATE_GOLDENFILES" == some "1"
      || envVar env "UPDATE_GOLDENFILES" == some "1" then .update
  else .check

theorem create_or_nonempty_cond (ce : Bool) (c : FileContent)
    (h : ce = true ∨ c ≠ []) : (ce || !(c.length == 0)) = true := by
  rcases h with h | h
  · simp [h]
  · simp [List.length_eq_zero, h]

/-- C3: registering an absolute path returns an invalid-input error as a
recoverable result through every registration operation, and leaves the
mint (in particular its registry) unchanged. -/
theorem register_absolute_path_rejected (m : Mint) (fs : FS) (p : PathBuf)
    (d : Differ) (rel : GoldenfileLocation) (cok : Bool)
    (habs : p.absolute = true) :
    m.register_goldenfile_with_differ_and_relation p d rel
        = (Except.error .invalidInput, m)
    ∧ m.register_goldenfile_with_differ p d = (Except.error .invalidInput, m)
    ∧ m.register_goldenfile p = (Except.error .invalidInput, m)
    ∧ m.new_goldenfile_with_differ fs p d cok
        = (Except.error .invalidInput, m, fs)
    ∧ m.new_goldenfile fs p cok = (Except.error .invalidInput, m, fs)
    ∧ m.move_goldenfile_with_differ fs p d
        = (Except.error .invalidInput, m, fs)
    ∧ m.move_goldenfile fs p = (Except.error .invalidInput, m, fs) := by
  simp [Mint.register_goldenfile_with_differ_and_relation,
    Mint.register_goldenfile_with_differ, Mint.register_goldenfile,
    Mint.new_goldenfile_with_differ, Mint.new_goldenfile,
    Mint.move_goldenfile_with_differ, Mint.move_goldenfile,
    PathBuf.is_relative, habs]

theorem register_absolute_path_rejected_witness :
    (⟨true, ["abs.txt"]⟩ : PathBuf).absolute = true
    ∧ (Mint.new ⟨true, ["g"]⟩ ⟨true, ["t"]⟩).register_goldenfile
        ⟨true, ["abs.txt"]⟩
        = (Except.error .invalidInput, Mint.new ⟨true, ["g"]⟩ ⟨true, ["t"]⟩)
    ∧ (Mint.new ⟨true, ["g"]⟩ ⟨true, ["t"]⟩).move_goldenfile []
        ⟨true, ["abs.txt"]⟩
        = (Except.error .invalidInput, Mint.new ⟨true, ["g"]⟩ ⟨true, ["t"]⟩, []) :=
  ⟨rfl,
    (register_absolute_path_rejected (Mint.new ⟨true, ["g"]⟩ ⟨true, ["t"]⟩)
      [] ⟨true, ["abs.txt"]⟩ Differ.text .Original true rfl).2.2.1,
    (register_absolute_path_rejected (Mint.new ⟨true, ["g"]⟩ ⟨true, ["t"]⟩)
      [] ⟨true, ["abs.txt"]⟩ Differ.text .Original true rfl).2.2.2.2.2.2⟩

/-- C4: when `File::create` fails inside `new_goldenfile` or
`new_goldenfile_with_differ`, the registry entry pushed by the call is
popped again before the error is returned, so the mint is exactly as it
was before the call and the filesystem is untouched. -/
theorem new_goldenfile_create_fail_rollback (m : Mint) (fs : FS) (p : PathBuf)
    (d : Differ) (hrel : p.absolute = false) :
    m.new_goldenfile_with_differ fs p d false = (Except.error .notFound, m, fs)
    ∧ m.new_goldenfile fs p false = (Except.error .notFound, m, fs) := by
  have hpop : (m.files ++ [(⟨p, d, .Original⟩ : GoldenfileEntry)]).dropLast
      = m.files := by
    simp
  constructor <;>
    simp [Mint.new_goldenfile, Mint.new_goldenfile_with_differ,
      Mint.register_goldenfile_with_differ,
      Mint.register_goldenfile_with_differ_and_relation,
      PathBuf.is_relative, hrel, hpop]

theorem new_goldenfile_create_fail_rollback_witness :
    (⟨false, ["a.txt"]⟩ : PathBuf).absolute = false
    ∧ (Mint.new ⟨true, ["g"]⟩ ⟨true, ["t"]⟩).new_goldenfile []
        ⟨false, ["a.txt"]⟩ false
        = (Except.error .notFound, Mint.new ⟨true, ["g"]⟩ ⟨true, ["t"]⟩, []) :=
  ⟨rfl,
    (new_goldenfile_create_fail_rollback (Mint.new ⟨true, ["g"]⟩ ⟨true, ["t"]⟩)
      [] ⟨false, ["a.txt"]⟩ (get_differ_for_path ⟨false, ["a.txt"]⟩) rfl).2⟩

/-- C5: when the golden-root file exists and the staging path differs
from it, a successful `move_goldenfile_with_differ` returns the vacated
golden-root path, the golden-root path no longer exists afterwards, and
the staging path holds exactly the prior golden content. -/
theorem move_goldenfile_vacates_golden_root (m : Mint) (fs : FS) (p : PathBuf)
    (d : Differ) (c : FileContent)
    (hrel : p.absolute = false)
    (hgold : lookupFile fs (joinPath m.path p) = some c)
    (hne : joinPath m.tempdir p ≠ joinPath m.path p) :
    (m.move_goldenfile_with_differ fs p d).1 = Except.ok (joinPath m.path p)
    ∧ lookupFile (m.move_goldenfile_with_differ fs p d).2.2
        (joinPath m.path p) = none
    ∧ lookupFile (m.move_goldenfile_with_differ fs p d).2.2
        (joinPath m.tempdir p) = some c := by
  simp [Mint.move_goldenfile_with_differ,
    Mint.register_goldenfile_with_differ_and_relation, PathBuf.is_relative,
    hrel, hgold, lookupFile_removeFile, lookupFile_setFile, hne]

theorem move_goldenfile_vacates_golden_root_witness :
    (⟨false, ["a.txt"]⟩ : PathBuf).absolute = false
    ∧ lookupFile [(⟨true, ["g", "a.txt"]⟩, [7])]
        (joinPath ⟨true, ["g"]⟩ ⟨false, ["a.txt"]⟩) = some [7]
    ∧ joinPath ⟨true, ["t"]⟩ ⟨false, ["a.txt"]⟩
        ≠ joinPath ⟨true, ["g"]⟩ ⟨false, ["a.txt"]⟩
    ∧ ((Mint.new ⟨true, ["g"]⟩ ⟨true, ["t"]⟩).move_goldenfile_with_differ
          [(⟨true, ["g", "a.txt"]⟩, [7])] ⟨false, ["a.txt"]⟩ .text).1
        = Except.ok (joinPath ⟨true, ["g"]⟩ ⟨false, ["a.txt"]⟩)
    ∧ lookupFile ((Mint.new ⟨true, ["g"]⟩ ⟨true, ["t"]⟩).move_goldenfile_with_differ
          [(⟨true, ["g", "a.txt"]⟩, [7])] ⟨false, ["a.txt"]⟩ .text).2.2
        (joinPath ⟨true, ["g"]⟩ ⟨false, ["a.txt"]⟩) = none
    ∧ lookupFile ((Mint.new ⟨true, ["g"]⟩ ⟨true, ["t"]⟩).move_goldenfile_with_differ
          [(⟨true, ["g", "a.txt"]⟩, [7])] ⟨false, ["a.txt"]⟩ .text).2.2
        (joinPath ⟨true, ["t"]⟩ ⟨false, ["a.txt"]⟩) = some [7] := by
  refine ⟨rfl, by decide, by decide, ?_⟩
  have h := move_goldenfile_vacates_golden_root
    (Mint.new ⟨true, ["g"]⟩ ⟨true, ["t"]⟩) [(⟨true, ["g", "a.txt"]⟩, [7])]
    ⟨false, ["a.txt"]⟩ .text [7] rfl (by decide) (by decide)
  exact ⟨h.1, h.2.1, h.2.2⟩

/-- C6: `overwrite_file` on an existing source of content `c` deletes
the destination (leaving it absent whether or not it existed) when `c`
is empty and the create-empty flag is false, and otherwise creates or
overwrites the destination with exactly `c`. -/
theorem overwrite_file_empty_policy (fs : FS) (dest source : PathBuf)
    (ce : Bool) (c : FileContent)
    (hsrc : lookupFile fs source = some c) :
    ((c = [] ∧ ce = false) →
      Mint.overwrite_file fs dest source ce = some (removeFile fs dest)
      ∧ lookupFile (removeFile fs dest) dest = none)
    ∧ ((ce = true ∨ c ≠ []) →
      Mint.overwrite_file fs dest source ce = some (setFile fs dest c)
      ∧ lookupFile (setFile fs dest c) dest = some c) := by
  constructor
  · rintro ⟨hc, hce⟩
    subst hc
    subst hce
    refine ⟨?_, by simp [lookupFile_removeFile]⟩
    by_cases hex : fileExists fs dest
    · simp [Mint.overwrite_file, hsrc, hex]
    · have hnone : lookupFile fs dest = none := by
        rcases h : lookupFile fs dest with _ | c
        · rfl
        · exact absurd (by simp [fileExists, h]) hex
      simp [Mint.overwrite_file, hsrc, hex, removeFile_of_not_exists fs dest hnone]
  · intro h
    refine ⟨?_, by simp [lookupFile_setFile]⟩
    simp [Mint.overwrite_file, hsrc, create_or_nonempty_cond ce c h]

theorem overwrite_file_empty_policy_witness :
    lookupFile [(⟨true, ["t", "a"]⟩, ([] : FileContent))] ⟨true, ["t", "a"]⟩
        = some []
    ∧ (([] : FileContent) = [] ∧ false = false)
    ∧ Mint.overwrite_file [(⟨true, ["t", "a"]⟩, ([] : FileContent))]
        ⟨true, ["g", "a"]⟩ ⟨true, ["t", "a"]⟩ false
        = some (removeFile [(⟨true, ["t", "a"]⟩, ([] : FileContent))]
            ⟨true, ["g", "a"]⟩)
    ∧ lookupFile (removeFile [(⟨true, ["t", "a"]⟩, ([] : FileContent))]
        ⟨true, ["g", "a"]⟩) ⟨true, ["g", "a"]⟩ = none := by
  refine ⟨by decide, ⟨rfl, rfl⟩, ?_⟩
  have h := overwrite_file_empty_policy
    [(⟨true, ["t", "a"]⟩, ([] : FileContent))] ⟨true, ["g", "a"]⟩
    ⟨true, ["t", "a"]⟩ false [] (by decide)
  exact h.1 ⟨rfl, rfl⟩

/-- C7: at teardown with the thread not panicking, the update pass runs
exactly when the legacy `REGENERATE_GOLDENFILES` or the current
`UPDATE_GOLDENFILES` environment variable holds the literal `"1"`; any
other value or absence of both makes the verify pass run instead. -/
theorem drop_update_toggle (env : List (String × String)) :
    (dropAction false env = .update ↔
      (envVar env "REGENERATE_GOLDENFILES" = some "1"
        ∨ envVar env "UPDATE_GOLDENFILES" = some "1"))
    ∧ (dropAction false env = .check ↔
      ¬(envVar env "REGENERATE_GOLDENFILES" = some "1"
        ∨ envVar env "UPDATE_GOLDENFILES" = some "1")) := by
  by_cases h : envVar env "REGENERATE_GOLDENFILES" = some "1"
      ∨ envVar env "UPDATE_GOLDENFILES" = some "1"
  · have hb : (envVar env "REGENERATE_GOLDENFILES" == some "1"
        || envVar env "UPDATE_GOLDENFILES" == some "1") = true := by
      simpa using h
    simp [dropAction, hb, h]
  · push_neg at h
    have hb : (envVar env "REGENERATE_GOLDENFILES" == some "1"
        || envVar env "UPDATE_GOLDENFILES" == some "1") = false := by
      simp [h.1, h.2]
    simp [dropAction, hb, h.1, h.2]

/-- C9: the default differ is a pure function of the file extension:
exactly the extensions bin, exe, gz, tar and zip select the exact-binary
differ, and everything else (including no extension) selects the textual
differ. -/
theorem get_differ_for_path_by_extension (p : PathBuf) :
    (get_differ_for_path p = .binary ↔
      (pathExtension p = some "bin" ∨ pathExtension p = some "exe"
        ∨ pathExtension p = some "gz" ∨ pathExtension p = some "tar"
        ∨ pathExtension p = some "zip"))
    ∧ (get_differ_for_path p = .text ↔
      ¬(pathExtension p = some "bin" ∨ pathExtension p = some "exe"
        ∨ pathExtension p = some "gz" ∨ pathExtension p = some "tar"
        ∨ pathExtension p = some "zip")) := by
  rcases h : pathExtension p with _ | s
  · simp [get_differ_for_path, h]
  · simp only [get_differ_for_path, h, Option.some.injEq]
    unfold differForExtensionName
    split_ifs with h1 h2 h3 h4 h5 <;> simp_all

theorem updateFiles_append (m : Mint) (es1 es2 : List GoldenfileEntry)
    (fs : FS) :
    updateFiles m (es1 ++ es2) fs =
      (updateFiles m es1 fs).bind (fun fs1 => updateFiles m es2 fs1) := by
  induction es1 generalizing fs with
  | nil => simp [updateFiles]
  | cons e es ih =>
      simp only [List.cons_append, updateFiles]
      rcases hov : Mint.overwrite_file fs (goldenNewPaths m e).1
          (goldenNewPaths m e).2 m.create_empty with _ | fs'
      · simp
      · simp [ih]

/-- C10: the update pass opens each source file with an unguarded
unwrap: as soon as it reaches a registered entry whose source (staging
side for Original, golden-root side for Temporary) does not exist, the
whole pass panics (modelled by `none`) instead of returning an error, so
the pass implicitly requires every processed source file to exist. -/
theorem update_pass_panics_on_missing_source (m : Mint)
    (es1 es2 : List GoldenfileEntry) (e : GoldenfileEntry) (fs fs1 : FS)
    (hfiles : m.files = es1 ++ e :: es2)
    (hpre : updateFiles m es1 fs = some fs1)
    (hmiss : lookupFile fs1 (goldenNewPaths m e).2 = none) :
    m.update_goldenfiles fs = none := by
  unfold Mint.update_goldenfiles
  rw [hfiles, updateFiles_append, hpre]
  simp [updateFiles, Mint.overwrite_file, hmiss]

theorem update_pass_panics_on_missing_source_witness :
    (Mint.mk ⟨true, ["g"]⟩ ⟨true, ["t"]⟩
        [⟨⟨false, ["a.txt"]⟩, .text, .Original⟩] true).files
      = [] ++ ⟨⟨false, ["a.txt"]⟩, .text, .Original⟩ :: []
    ∧ updateFiles (Mint.mk ⟨true, ["g"]⟩ ⟨true, ["t"]⟩
        [⟨⟨false, ["a.txt"]⟩, .text, .Original⟩] true) [] [] = some []
    ∧ lookupFile []
        (goldenNewPaths (Mint.mk ⟨true, ["g"]⟩ ⟨true, ["t"]⟩
          [⟨⟨false, ["a.txt"]⟩, .text, .Original⟩] true)
          ⟨⟨false, ["a.txt"]⟩, .text, .Original⟩).2 = none
    ∧ (Mint.mk ⟨true, ["g"]⟩ ⟨true, ["t"]⟩
        [⟨⟨false, ["a.txt"]⟩, .text, .Original⟩] true).update_goldenfiles []
      = none :=
  ⟨rfl, rfl, rfl,
    update_pass_panics_on_missing_source
      (Mint.mk ⟨true, ["g"]⟩ ⟨true, ["t"]⟩
        [⟨⟨false, ["a.txt"]⟩, .text, .Original⟩] true)
      [] [] ⟨⟨false, ["a.txt"]⟩, .text, .Original⟩ [] [] rfl rfl rfl⟩

/-- C8 counterexample: with the golden-root file `g/missing.txt` absent,
the copy step of `move_goldenfile_with_differ` fails, and the call does
not abort: it returns the recoverable error result to the caller (with
the just-pushed registry entry still present and the filesystem
untouched), refuting the claim that such a failure aborts immediately. -/
theorem move_goldenfile_copy_fail_counterexample :
    (Mint.mk ⟨true, ["g"]⟩ ⟨true, ["t"]⟩ [] true).move_goldenfile_with_differ
        [] ⟨false, ["missing.txt"]⟩ .text
      = (Except.error .notFound,
         Mint.mk ⟨true, ["g"]⟩ ⟨true, ["t"]⟩
           [⟨⟨false, ["missing.txt"]⟩, .text, .Temporary⟩] true,
         []) := rfl

/-- C8 (amended): when the copy step of `move_goldenfile_with_differ`
fails because the golden-root file is absent, the failure is returned to
the caller as a recoverable error result (no abort); the just-registered
entry is not rolled back and the filesystem is unchanged. -/
theorem move_goldenfile_copy_fail_returns_error (m : Mint) (fs : FS)
    (p : PathBuf) (d : Differ)
    (hrel : p.absolute = false)
    (hmiss : lookupFile fs (joinPath m.path p) = none) :
    m.move_goldenfile_with_differ fs p d =
      (Except.error .notFound,
       { m with files := m.files ++ [⟨p, d, .Temporary⟩] }, fs) := by
  simp [Mint.move_goldenfile_with_differ,
    Mint.register_goldenfile_with_differ_and_relation, PathBuf.is_relative,
    hrel, hmiss]

theorem move_goldenfile_copy_fail_returns_error_witness :
    (⟨false, ["b.txt"]⟩ : PathBuf).absolute = false
    ∧ lookupFile [] (joinPath ⟨true, ["g"]⟩ ⟨false, ["b.txt"]⟩) = none
    ∧ (Mint.mk ⟨true, ["g"]⟩ ⟨true, ["t"]⟩ [] false).move_goldenfile_with_differ
        [] ⟨false, ["b.txt"]⟩ .binary
      = (Except.error .notFound,
         { Mint.mk ⟨true, ["g"]⟩ ⟨true, ["t"]⟩ [] false with
            files := (Mint.mk ⟨true, ["g"]⟩ ⟨true, ["t"]⟩ [] false).files
              ++ [⟨⟨false, ["b.txt"]⟩, .binary, .Temporary⟩] }, []) :=
  ⟨rfl, rfl,
    move_goldenfile_copy_fail_returns_error
      (Mint.mk ⟨true, ["g"]⟩ ⟨true, ["t"]⟩ [] false) [] ⟨false, ["b.txt"]⟩
      .binary rfl rfl⟩

/-- C1 counterexample: one Temporary entry `a.txt`; the staging file
holds byte `[2]` and the golden-root file byte `[1]`. The claim requires
the update pass to copy the staging file onto the golden-root path, so
the golden-root file would become `[2]`; instead the code keeps the
golden-root file at `[1]` and overwrites the staging file with `[1]`
(destination is the staging side for Temporary entries). -/
theorem update_temporary_direction_counterexample :
    ((Mint.mk ⟨true, ["golden"]⟩ ⟨true, ["tmp"]⟩
        [⟨⟨false, ["a.txt"]⟩, .text, .Temporary⟩] true).update_goldenfiles
      [(⟨true, ["golden", "a.txt"]⟩, [1]), (⟨true, ["tmp", "a.txt"]⟩, [2])]).map
        (fun fs => (lookupFile fs ⟨true, ["golden", "a.txt"]⟩,
                    lookupFile fs ⟨true, ["tmp", "a.txt"]⟩))
      = some (some [1], some [1]) := by decide

/-- C1 (amended): the update pass overwrites the resolved destination
with the resolved source, where for an Original entry the destination is
the golden-root path and the source the staging path, while for a
Temporary entry the destination is the staging path and the source the
golden-root path (the code copies golden-root onto staging for
Temporary, not the other way around). Stated for a single registered
entry whose source exists and is not suppressed by the empty-file
policy. -/
theorem update_resolves_destination_by_topology (root tmp f : PathBuf)
    (ce : Bool) (d : Differ) (fs : FS) (ct cg : FileContent)
    (hT : lookupFile fs (joinPath tmp f) = some ct)
    (hG : lookupFile fs (joinPath root f) = some cg)
    (hct : ce = true ∨ ct ≠ [])
    (hcg : ce = true ∨ cg ≠ []) :
    (Mint.mk root tmp [⟨f, d, .Original⟩] ce).update_goldenfiles fs
        = some (setFile fs (joinPath root f) ct)
    ∧ (Mint.mk root tmp [⟨f, d, .Temporary⟩] ce).update_goldenfiles fs
        = some (setFile fs (joinPath tmp f) cg) := by
  constructor
  · simp [Mint.update_goldenfiles, updateFiles, goldenNewPaths,
      Mint.overwrite_file, hT, create_or_nonempty_cond ce ct hct]
  · simp [Mint.update_goldenfiles, updateFiles, goldenNewPaths,
      Mint.overwrite_file, hG, create_or_nonempty_cond ce cg hcg]

theorem update_resolves_destination_by_topology_witness :
    lookupFile [(⟨true, ["g", "a"]⟩, [5]), (⟨true, ["t", "a"]⟩, [6])]
        (joinPath ⟨true, ["t"]⟩ ⟨false, ["a"]⟩) = some [6]
    ∧ lookupFile [(⟨true, ["g", "a"]⟩, [5]), (⟨true, ["t", "a"]⟩, [6])]
        (joinPath ⟨true, ["g"]⟩ ⟨false, ["a"]⟩) = some [5]
    ∧ (true = true ∨ ([6] : FileContent) ≠ [])
    ∧ (true = true ∨ ([5] : FileContent) ≠ [])
    ∧ (Mint.mk ⟨true, ["g"]⟩ ⟨true, ["t"]⟩
        [⟨⟨false, ["a"]⟩, .text, .Original⟩] true).update_goldenfiles
        [(⟨true, ["g", "a"]⟩, [5]), (⟨true, ["t", "a"]⟩, [6])]
      = some (setFile [(⟨true, ["g", "a"]⟩, [5]), (⟨true, ["t", "a"]⟩, [6])]
          (joinPath ⟨true, ["g"]⟩ ⟨false, ["a"]⟩) [6])
    ∧ (Mint.mk ⟨true, ["g"]⟩ ⟨true, ["t"]⟩
        [⟨⟨false, ["a"]⟩, .text, .Temporary⟩] true).update_goldenfiles
        [(⟨true, ["g", "a"]⟩, [5]), (⟨true, ["t", "a"]⟩, [6])]
      = some (setFile [(⟨true, ["g", "a"]⟩, [5]), (⟨true, ["t", "a"]⟩, [6])]
          (joinPath ⟨true, ["t"]⟩ ⟨false, ["a"]⟩) [5]) := by
  refine ⟨by decide, by decide, Or.inl rfl, Or.inl rfl, ?_⟩
  have h := update_resolves_destination_by_topology ⟨true, ["g"]⟩
    ⟨true, ["t"]⟩ ⟨false, ["a"]⟩ true .text
    [(⟨true, ["g", "a"]⟩, [5]), (⟨true, ["t", "a"]⟩, [6])] [6] [5]
    (by decide) (by decide) (Or.inl rfl) (Or.inl rfl)
  exact ⟨h.1, h.2⟩

theorem joinPath_inj_of_relative (base f g : PathBuf)
    (hf : f.absolute = false) (hg : g.absolute = false)
    (h : joinPath base f = joinPath base g) : f = g := by
  cases f with | mk fa fc =>
  cases g with | mk ga gc =>
  simp only [PathBuf.absolute] at hf hg
  subst hf
  subst hg
  simp only [joinPath, Bool.false_eq_true, if_false, PathBuf.mk.injEq,
    true_and] at h
  exact congrArg (PathBuf.mk false) (List.append_cancel_left h)

theorem joinPath_cross_ne (m : Mint)
    (hdisj : ∀ x y : List String,
      m.path.components ++ x ≠ m.tempdir.components ++ y)
    (f g : PathBuf) (hf : f.absolute = false) (hg : g.absolute = false) :
    joinPath m.path f ≠ joinPath m.tempdir g := by
  intro h
  simp only [joinPath, hf, hg, Bool.false_eq_true, if_false,
    PathBuf.mk.injEq] at h
  exact hdisj f.components g.components h.2

theorem goldenNewPaths_ne_within (m : Mint)
    (hdisj : ∀ x y : List String,
      m.path.components ++ x ≠ m.tempdir.components ++ y)
    (e : GoldenfileEntry) (he : e.path.absolute = false) :
    (goldenNewPaths m e).1 ≠ (goldenNewPaths m e).2 := by
  cases hrel : e.relation
  · simp only [goldenNewPaths, hrel]
    exact joinPath_cross_ne m hdisj e.path e.path he he
  · simp only [goldenNewPaths, hrel]
    exact (joinPath_cross_ne m hdisj e.path e.path he he).symm

theorem goldenNewPaths_ne_across (m : Mint)
    (hdisj : ∀ x y : List String,
      m.path.components ++ x ≠ m.tempdir.components ++ y)
    (e e' : GoldenfileEntry)
    (he : e.path.absolute = false) (he' : e'.path.absolute = false)
    (hne : e.path ≠ e'.path) :
    (goldenNewPaths m e).1 ≠ (goldenNewPaths m e').1
    ∧ (goldenNewPaths m e).1 ≠ (goldenNewPaths m e').2
    ∧ (goldenNewPaths m e).2 ≠ (goldenNewPaths m e').1
    ∧ (goldenNewPaths m e).2 ≠ (goldenNewPaths m e').2 := by
  have hoo : joinPath m.path e.path ≠ joinPath m.path e'.path :=
    fun h => hne (joinPath_inj_of_relative m.path _ _ he he' h)
  have htt : joinPath m.tempdir e.path ≠ joinPath m.tempdir e'.path :=
    fun h => hne (joinPath_inj_of_relative m.tempdir _ _ he he' h)
  have hot : joinPath m.path e.path ≠ joinPath m.tempdir e'.path :=
    joinPath_cross_ne m hdisj e.path e'.path he he'
  have hto : joinPath m.tempdir e.path ≠ joinPath m.path e'.path :=
    fun h => joinPath_cross_ne m hdisj e'.path e.path he' he h.symm
  cases hrel : e.relation <;> cases hrel' : e'.relation
  · simp only [goldenNewPaths, hrel, hrel']
    exact ⟨hoo, hot, hto, htt⟩
  · simp only [goldenNewPaths, hrel, hrel']
    exact ⟨hot, hoo, htt, hto⟩
  · simp only [goldenNewPaths, hrel, hrel']
    exact ⟨hto, htt, hoo, hot⟩
  · simp only [goldenNewPaths, hrel, hrel']
    exact ⟨htt, hto, hot, hoo⟩

theorem overwrite_file_frame (fs fs' : FS) (d s : PathBuf) (ce : Bool)
    (h : Mint.overwrite_file fs d s ce = some fs') (q : PathBuf)
    (hq : q ≠ d) : lookupFile fs' q = lookupFile fs q := by
  unfold Mint.overwrite_file at h
  rcases hsrc : lookupFile fs s with _ | c
  · rw [hsrc] at h
    cases h
  · rw [hsrc] at h
    by_cases h1 : (ce || !(c.length == 0)) = true
    · simp only [h1, if_true, Option.some.injEq] at h
      subst h
      simp [lookupFile_setFile, hq]
    · by_cases h2 : fileExists fs d = true
      · simp [h1, h2] at h
        subst h
        simp [lookupFile_removeFile, hq]
      · simp [h1, h2] at h
        subst h
        rfl

theorem path_eq_of_source_eq_dest (m : Mint)
    (hdisj : ∀ x y : List String,
      m.path.components ++ x ≠ m.tempdir.components ++ y)
    (a e : GoldenfileEntry)
    (ha : a.path.absolute = false) (he : e.path.absolute = false)
    (h : (goldenNewPaths m a).2 = (goldenNewPaths m e).1) :
    a.path = e.path := by
  by_contra hne
  exact (goldenNewPaths_ne_across m hdisj a e ha he hne).2.2.1 h

theorem class_paths_ne_dest (m : Mint)
    (hdisj : ∀ x y : List String,
      m.path.components ++ x ≠ m.tempdir.components ++ y)
    (f : PathBuf) (hf : f.absolute = false)
    (e : GoldenfileEntry) (he : e.path.absolute = false)
    (hne : ¬ f = e.path) :
    joinPath m.path f ≠ (goldenNewPaths m e).1
    ∧ joinPath m.tempdir f ≠ (goldenNewPaths m e).1 := by
  have h := goldenNewPaths_ne_across m hdisj ⟨f, .text, .Original⟩ e hf he hne
  exact ⟨h.1, h.2.2.1⟩

theorem updateFiles_sync (m : Mint)
    (hdisj : ∀ x y : List String,
      m.path.components ++ x ≠ m.tempdir.components ++ y)
    (f : PathBuf) (hf : f.absolute = false) (v : FileContent)
    (hv : m.create_empty = true ∨ v ≠ [])
    (es : List GoldenfileEntry) : ∀ (fs fs' : FS),
    (∀ e ∈ es, e.path.absolute = false) →
    lookupFile fs (joinPath m.path f) = some v →
    lookupFile fs (joinPath m.tempdir f) = some v →
    updateFiles m es fs = some fs' →
    lookupFile fs' (joinPath m.path f) = some v
    ∧ lookupFile fs' (joinPath m.tempdir f) = some v := by
  induction es with
  | nil =>
      intro fs fs' _ hO hT h
      simp only [updateFiles, Option.some.injEq] at h
      subst h
      exact ⟨hO, hT⟩
  | cons e es ih =>
      intro fs fs' hrel hO hT h
      simp only [updateFiles] at h
      rcases hov : Mint.overwrite_file fs (goldenNewPaths m e).1
          (goldenNewPaths m e).2 m.create_empty with _ | fs1
      · rw [hov] at h
        cases h
      · rw [hov] at h
        have he : e.path.absolute = false := hrel e (by simp)
        by_cases hpe : f = e.path
        · subst hpe
          have hOT : joinPath m.path e.path ≠ joinPath m.tempdir e.path :=
            joinPath_cross_ne m hdisj e.path e.path he he
          cases hr : e.relation
          · have h1 : (goldenNewPaths m e).1 = joinPath m.path e.path := by
              simp [goldenNewPaths, hr]
            have h2 : (goldenNewPaths m e).2 = joinPath m.tempdir e.path := by
              simp [goldenNewPaths, hr]
            rw [h1, h2] at hov
            have hcomp : Mint.overwrite_file fs (joinPath m.path e.path)
                (joinPath m.tempdir e.path) m.create_empty
                = some (setFile fs (joinPath m.path e.path) v) := by
              simp [Mint.overwrite_file, hT, create_or_nonempty_cond _ _ hv]
            rw [hcomp, Option.some.injEq] at hov
            subst hov
            refine ih _ fs' (fun a ha => hrel a (by simp [ha])) ?_ ?_ h
            · rw [lookupFile_setFile, if_pos rfl]
            · rw [lookupFile_setFile, if_neg (Ne.symm hOT)]
              exact hT
          · have h1 : (goldenNewPaths m e).1 = joinPath m.tempdir e.path := by
              simp [goldenNewPaths, hr]
            have h2 : (goldenNewPaths m e).2 = joinPath m.path e.path := by
              simp [goldenNewPaths, hr]
            rw [h1, h2] at hov
            have hcomp : Mint.overwrite_file fs (joinPath m.tempdir e.path)
                (joinPath m.path e.path) m.create_empty
                = some (setFile fs (joinPath m.tempdir e.path) v) := by
              simp [Mint.overwrite_file, hO, create_or_nonempty_cond _ _ hv]
            rw [hcomp, Option.some.injEq] at hov
            subst hov
            refine ih _ fs' (fun a ha => hrel a (by simp [ha])) ?_ ?_ h
            · rw [lookupFile_setFile, if_neg hOT]
              exact hO
            · rw [lookupFile_setFile, if_pos rfl]
        · have hne2 := class_paths_ne_dest m hdisj f hf e he hpe
          have hO1 := overwrite_file_frame fs fs1 _ _ _ hov _ hne2.1
          have hT1 := overwrite_file_frame fs fs1 _ _ _ hov _ hne2.2
          exact ih fs1 fs' (fun a ha => hrel a (by simp [ha]))
            (hO1.trans hO) (hT1.trans hT) h

theorem updateFiles_roundtrip (m : Mint)
    (hdisj : ∀ x y : List String,
      m.path.components ++ x ≠ m.tempdir.components ++ y)
    (es : List GoldenfileEntry) : ∀ (fs : FS),
    (∀ e ∈ es, e.path.absolute = false) →
    (∀ e ∈ es, ∃ c, lookupFile fs (goldenNewPaths m e).2 = some c
        ∧ (m.create_empty = true ∨ c ≠ [])) →
    (∀ e ∈ es, ∀ e2 ∈ es, e.path = e2.path → e2.differ = .text →
        ∀ c, lookupFile fs (goldenNewPaths m e).2 = some c →
          validUtf8 c = true) →
    ∃ fs', updateFiles m es fs = some fs'
      ∧ checkFiles m es fs' = CheckOutcome.ok := by
  induction es with
  | nil =>
      intro fs _ _ _
      exact ⟨fs, by simp [updateFiles], by simp [checkFiles]⟩
  | cons e es ih =>
      intro fs hrel hsrc hutf
      obtain ⟨c, hc, hcne⟩ := hsrc e (by simp)
      have he : e.path.absolute = false := hrel e (by simp)
      have hwithin : (goldenNewPaths m e).1 ≠ (goldenNewPaths m e).2 :=
        goldenNewPaths_ne_within m hdisj e he
      have hOT : joinPath m.path e.path ≠ joinPath m.tempdir e.path :=
        joinPath_cross_ne m hdisj e.path e.path he he
      have hov : Mint.overwrite_file fs (goldenNewPaths m e).1
          (goldenNewPaths m e).2 m.create_empty
          = some (setFile fs (goldenNewPaths m e).1 c) := by
        simp [Mint.overwrite_file, hc, create_or_nonempty_cond _ _ hcne]
      have hsrc1 : ∀ a ∈ es, ∃ c2,
          lookupFile (setFile fs (goldenNewPaths m e).1 c)
            (goldenNewPaths m a).2 = some c2
          ∧ (m.create_empty = true ∨ c2 ≠ []) := by
        intro a ha
        by_cases hda : (goldenNewPaths m a).2 = (goldenNewPaths m e).1
        · exact ⟨c, by rw [lookupFile_setFile, if_pos hda], hcne⟩
        · obtain ⟨c2, hc2, hcne2⟩ := hsrc a (by simp [ha])
          exact ⟨c2, by rw [lookupFile_setFile, if_neg hda]; exact hc2, hcne2⟩
      have hutf1 : ∀ a ∈ es, ∀ b ∈ es, a.path = b.path → b.differ = .text →
          ∀ c2, lookupFile (setFile fs (goldenNewPaths m e).1 c)
            (goldenNewPaths m a).2 = some c2 → validUtf8 c2 = true := by
        intro a ha b hb hab hbt c2 hc2
        by_cases hda : (goldenNewPaths m a).2 = (goldenNewPaths m e).1
        · rw [lookupFile_setFile, if_pos hda, Option.some.injEq] at hc2
          subst hc2
          have hpe : a.path = e.path :=
            path_eq_of_source_eq_dest m hdisj a e (hrel a (by simp [ha])) he hda
          exact hutf e (by simp) b (by simp [hb]) (hpe.symm.trans hab) hbt c hc
        · rw [lookupFile_setFile, if_neg hda] at hc2
          exact hutf a (by simp [ha]) b (by simp [hb]) hab hbt c2 hc2
      obtain ⟨fs2, hupd2, hchk2⟩ := ih (setFile fs (goldenNewPaths m e).1 c)
        (fun a ha => hrel a (by simp [ha])) hsrc1 hutf1
      have hpair : lookupFile fs2 (goldenNewPaths m e).1 = some c
          ∧ lookupFile fs2 (goldenNewPaths m e).2 = some c := by
        cases hr : e.relation
        · have h1 : (goldenNewPaths m e).1 = joinPath m.path e.path := by
            simp [goldenNewPaths, hr]
          have h2 : (goldenNewPaths m e).2 = joinPath m.tempdir e.path := by
            simp [goldenNewPaths, hr]
          have hfs1O : lookupFile (setFile fs (goldenNewPaths m e).1 c)
              (joinPath m.path e.path) = some c := by
            rw [← h1, lookupFile_setFile, if_pos rfl]
          have hfs1T : lookupFile (setFile fs (goldenNewPaths m e).1 c)
              (joinPath m.tempdir e.path) = some c := by
            rw [← h2, lookupFile_setFile, if_neg (Ne.symm hwithin)]
            exact hc
          have hsync := updateFiles_sync m hdisj e.path he c hcne es
            (setFile fs (goldenNewPaths m e).1 c) fs2
            (fun a ha => hrel a (by simp [ha])) hfs1O hfs1T hupd2
          exact ⟨h1 ▸ hsync.1, h2 ▸ hsync.2⟩
        · have h1 : (goldenNewPaths m e).1 = joinPath m.tempdir e.path := by
            simp [goldenNewPaths, hr]
          have h2 : (goldenNewPaths m e).2 = joinPath m.path e.path := by
            simp [goldenNewPaths, hr]
          have hfs1T : lookupFile (setFile fs (goldenNewPaths m e).1 c)
              (joinPath m.tempdir e.path) = some c := by
            rw [← h1, lookupFile_setFile, if_pos rfl]
          have hfs1O : lookupFile (setFile fs (goldenNewPaths m e).1 c)
              (joinPath m.path e.path) = some c := by
            rw [← h2, lookupFile_setFile, if_neg (Ne.symm hwithin)]
            exact hc
          have hsync := updateFiles_sync m hdisj e.path he c hcne es
            (setFile fs (goldenNewPaths m e).1 c) fs2
            (fun a ha => hrel a (by simp [ha])) hfs1O hfs1T hupd2
          exact ⟨h1 ▸ hsync.2, h2 ▸ hsync.1⟩
      have hrd : runDiffer e.differ fs2 (goldenNewPaths m e).1
          (goldenNewPaths m e).2 = DifferResult.ok := by
        cases hdf : e.differ
        · have hval : validUtf8 c = true :=
            hutf e (by simp) e (by simp) rfl hdf c hc
          simp [runDiffer, text_diff, hpair.1, hpair.2, hval]
        · simp [runDiffer, binary_diff, hpair.1, hpair.2]
      refine ⟨fs2, ?_, ?_⟩
      · simp only [updateFiles, hov]
        exact hupd2
      · simp only [checkFiles, hrd]
        exact hchk2

/-- C2 counterexample: one Original entry with create-empty false; the
staging candidate is the empty file and the golden-root file holds
`[1]`. The update pass deletes the golden-root file; the immediately
following verify pass, with the candidate unchanged, then fails while
opening the missing golden-root file (a panic inside the differ), so the
round trip does not succeed. -/
theorem roundtrip_empty_candidate_counterexample :
    ((Mint.mk ⟨true, ["golden"]⟩ ⟨true, ["tmp"]⟩
        [⟨⟨false, ["a.txt"]⟩, .text, .Original⟩] false).update_goldenfiles
        [(⟨true, ["golden", "a.txt"]⟩, [1]),
         (⟨true, ["tmp", "a.txt"]⟩, [])]).map
      (fun fs => (Mint.mk ⟨true, ["golden"]⟩ ⟨true, ["tmp"]⟩
        [⟨⟨false, ["a.txt"]⟩, .text, .Original⟩] false).check_goldenfiles fs)
      = some (CheckOutcome.failed ⟨false, ["a.txt"]⟩
          (DifferResult.openError ⟨true, ["golden", "a.txt"]⟩)
          (some [(⟨true, ["tmp", "a.txt"]⟩, [])])) := by decide

/-- C2 (amended): for every set of registered entries, duplicate
registrations of the same path included, running the update pass and
then immediately the verify pass with the candidate content unchanged
succeeds, provided the golden root and the staging root do not overlap,
every entry has an existing candidate (source) file, the create-empty
flag is set or no candidate content is empty (otherwise the update pass
deletes the golden-side file and the verify pass then panics opening
it, see the counterexample, though never with a content mismatch), and
every candidate content on a path registered with the textual differ is
valid UTF-8 (otherwise the verify pass panics decoding it). -/
theorem update_then_check_succeeds (m : Mint) (fs : FS)
    (hdisj : ∀ x y : List String,
      m.path.components ++ x ≠ m.tempdir.components ++ y)
    (hrel : ∀ e ∈ m.files, e.path.absolute = false)
    (hsrc : ∀ e ∈ m.files, ∃ c, lookupFile fs (goldenNewPaths m e).2 = some c
        ∧ (m.create_empty = true ∨ c ≠ []))
    (hutf : ∀ e ∈ m.files, ∀ e2 ∈ m.files, e.path = e2.path →
        e2.differ = .text →
        ∀ c, lookupFile fs (goldenNewPaths m e).2 = some c →
          validUtf8 c = true) :
    ∃ fs', m.update_goldenfiles fs = some fs'
      ∧ m.check_goldenfiles fs' = CheckOutcome.ok :=
  updateFiles_roundtrip m hdisj m.files fs hrel hsrc hutf

theorem update_then_check_succeeds_witness :
    (∀ x y : List String, ["g"] ++ x ≠ ["t"] ++ y)
    ∧ (∃ fs', (Mint.mk ⟨true, ["g"]⟩ ⟨true, ["t"]⟩
        [⟨⟨false, ["a"]⟩, .text, .Original⟩,
         ⟨⟨false, ["b"]⟩, .binary, .Temporary⟩] true).update_goldenfiles
        [(⟨true, ["t", "a"]⟩, [1]), (⟨true, ["g", "b"]⟩, [2])] = some fs'
      ∧ (Mint.mk ⟨true, ["g"]⟩ ⟨true, ["t"]⟩
        [⟨⟨false, ["a"]⟩, .text, .Original⟩,
         ⟨⟨false, ["b"]⟩, .binary, .Temporary⟩] true).check_goldenfiles fs'
        = CheckOutcome.ok) := by
  have hdisj : ∀ x y : List String, ["g"] ++ x ≠ ["t"] ++ y := by
    intro x y h
    injection h with h1 _
    exact absurd h1 (by decide)
  refine ⟨hdisj, ?_⟩
  refine update_then_check_succeeds
    (Mint.mk ⟨true, ["g"]⟩ ⟨true, ["t"]⟩
      [⟨⟨false, ["a"]⟩, .text, .Original⟩,
       ⟨⟨false, ["b"]⟩, .binary, .Temporary⟩] true)
    [(⟨true, ["t", "a"]⟩, [1]), (⟨true, ["g", "b"]⟩, [2])]
    hdisj (by decide) ?_ ?_
  · intro e he
    simp only [List.mem_cons, List.not_mem_nil, or_false] at he
    rcases he with rfl | rfl
    · exact ⟨[1], by decide, Or.inl rfl⟩
    · exact ⟨[2], by decide, Or.inl rfl⟩
  · intro e he e2 he2 hpath htext c hcl
    simp only [List.mem_cons, List.not_mem_nil, or_false] at he he2
    rcases he with rfl | rfl <;> rcases he2 with rfl | rfl
    · have hval : validUtf8 ((lookupFile
          [(⟨true, ["t", "a"]⟩, [1]), (⟨true, ["g", "b"]⟩, [2])]
          (goldenNewPaths (Mint.mk ⟨true, ["g"]⟩ ⟨true, ["t"]⟩
            [⟨⟨false, ["a"]⟩, .text, .Original⟩,
             ⟨⟨false, ["b"]⟩, .binary, .Temporary⟩] true)
            ⟨⟨false, ["a"]⟩, .text, .Original⟩).2).getD []) = true := by
        decide
      rw [hcl] at hval
      simpa using hval
    · exact absurd hpath (by decide)
    · exact absurd hpath (by decide)
    · exact absurd htext (by decide)

end Goldenfile
